import Mathlib

/-!
Verification development for the congestion-control experiment harness
(`final_analysis.py` and `src/wrappers/ledbat.py`).

The Python sources are shallowly embedded: pure data flow becomes Lean
functions, the filesystem and the subprocess layer become explicit
parameters, a raised exception becomes `Except.error`, and a pandas `NaN`
becomes `Option.none`.  Numeric values are rationals; only the pandas
sample standard deviation, which takes a square root, lives in `ℝ`.
-/

deriving instance DecidableEq for Except

/-! ## Run Descriptor Catalog (`NET_PROFILES`, `CC_ALGOS`) -/

structure NetProfile where
  name : String
  latency : ℕ
  dl_trace : String
  ul_trace : String
deriving DecidableEq, Repr

def NET_PROFILES : List (String × NetProfile) :=
  [("1", { name := "LTE (Low Latency)", latency := 5,
           dl_trace := "mahimahi/traces/TMobile-LTE-driving.down",
           ul_trace := "mahimahi/traces/TMobile-LTE-driving.up" }),
   ("2", { name := "LTE (High Latency)", latency := 200,
           dl_trace := "mahimahi/traces/TMobile-LTE-short.down",
           ul_trace := "mahimahi/traces/TMobile-LTE-short.up" })]

def CC_ALGOS : List String := ["cubic", "fillp_sheep", "vegas"]

/-! ## Per-run metrics artifacts

A metrics CSV always carries the columns `timestamp`, `throughput`, `rtt`
and `queuing_delay` (the artifact format of the spec requires at least
`throughput` and `rtt`); the `loss_rate` column may be absent, which the
frame-level flag `hasLossRate` records.  When `hasLossRate` is `false` the
`loss_rate` fields of the rows are meaningless placeholders. -/

structure CsvRow where
  timestamp : ℚ
  throughput : ℚ
  rtt : ℚ
  loss_rate : ℚ
  queuing_delay : ℚ
deriving DecidableEq, Repr

structure Csv where
  hasLossRate : Bool
  rows : List CsvRow
deriving DecidableEq, Repr

/-- One row of the Aggregate Dataset: the metric columns plus the metadata
columns added by `collect_dataframes`.  The `timestamp` column has been
overwritten with the zero-based sequence index, hence its type `ℕ`.
`loss_rate` is `none` for rows coming from a frame without that column
(pandas concat fills such cells with NaN). -/
structure AggRow where
  timestamp : ℕ
  throughput : ℚ
  rtt : ℚ
  loss_rate : Option ℚ
  queuing_delay : ℚ
  scheme : String
  profile : String
  profile_name : String
  latency : ℕ
deriving DecidableEq, Repr, Inhabited

/-- The value of `collect_dataframes`: either the columnless
`pd.DataFrame()` (no frame was parsed), or the concatenation of the parsed
frames, which has the metric and metadata columns and whose `loss_rate`
column exists exactly when some parsed frame had one. -/
inductive Dataset where
  | empty : Dataset
  | concat (hasLossRate : Bool) (rows : List AggRow) : Dataset
deriving DecidableEq, Repr

def Dataset.isEmpty : Dataset → Bool
  | .empty => true
  | .concat _ rows => rows.isEmpty

def Dataset.rowsOf : Dataset → List AggRow
  | .empty => []
  | .concat _ rows => rows

/-- The filesystem as seen by the Aggregator, per catalog pair:
`none` models a missing `results/profile_p/a/a_cc_log.csv`,
`some (.error ())` a file whose parse raises, and `some (.ok c)` a file
parsed into the frame `c`. -/
def AggFS : Type := String → String → Option (Except Unit Csv)

/-- The tagging step of `collect_dataframes` for one parsed frame: add the
`scheme`, `profile`, `profile_name` and `latency` columns and overwrite
`timestamp` with `list(range(len(df)))`. -/
def tagRows (prof_id : String) (cfg : NetProfile) (algo : String) (c : Csv) : List AggRow :=
  ((List.range c.rows.length).zip c.rows).map fun (i, r) =>
    { timestamp := i, throughput := r.throughput, rtt := r.rtt,
      loss_rate := if c.hasLossRate then some r.loss_rate else none,
      queuing_delay := r.queuing_delay,
      scheme := algo, profile := prof_id, profile_name := cfg.name,
      latency := cfg.latency }

/-- The list `frames` accumulated by the loop of `collect_dataframes`:
one tagged frame per catalog pair whose artifact is present and parses,
in catalog order, together with its column information. -/
def pairFrames (fs : AggFS) : List (Bool × List AggRow) :=
  NET_PROFILES.flatMap fun (prof_id, cfg) =>
    CC_ALGOS.filterMap fun algo =>
      match fs prof_id algo with
      | some (.ok c) => some (c.hasLossRate, tagRows prof_id cfg algo c)
      | _ => none

/-- Embedding of `collect_dataframes`: probe every catalog pair in order,
skip missing files (warning) and parse failures (caught exception), tag
each parsed frame, and concatenate; with no frame at all, return the empty
`pd.DataFrame()`. -/
def collect_dataframes (fs : AggFS) : Dataset :=
  if (pairFrames fs).isEmpty then .empty
  else .concat ((pairFrames fs).any (·.1)) ((pairFrames fs).flatMap (·.2))

/-- The aggregate rows contributed by one catalog pair: the tagged rows of
its artifact when present and parseable, nothing otherwise. -/
def chunkRows (fs : AggFS) (prof_id : String) (cfg : NetProfile) (algo : String) :
    List AggRow :=
  match fs prof_id algo with
  | some (.ok c) => tagRows prof_id cfg algo c
  | _ => []

/-! ## Test Runner (`execute_tests`) -/

/-- A file of the shared metrics-output area `logs/`, as seen by
`glob.glob` plus `os.path.getmtime`. -/
structure FileEntry where
  fname : String
  mtime : ℚ
deriving DecidableEq, Repr

/-- Selection `sorted(..., key=os.path.getmtime, reverse=True)[0]`: the head of the
list stably sorted by decreasing modification time (`List.insertionSort`
places an element before the first later element it compares
less-or-equal to, which is the stable order of `sorted`). -/
def newestLog (entries : List FileEntry) : Option FileEntry :=
  (entries.insertionSort (fun e f => f.mtime ≤ e.mtime)).head?

/-- Outcome recorded for one `(profile, scheme)` pair of `execute_tests`. -/
inductive RunResult where
  | failed : RunResult
  | metricsMissing : RunResult
  | metricsCopied (source : String) (dest : String) : RunResult
deriving DecidableEq, Repr

def runDir (prof_id algo : String) : String :=
  "results/profile_" ++ prof_id ++ "/" ++ algo

/-- Body of the inner loop of `execute_tests` for one pair: a failing
invocation is caught (`except ... continue`) and recorded; on success the
newest `logs/metrics_algo_*.csv` is copied to the fixed per-run name, or a
warning is recorded when none exists.  `invokeOk` gives the exit status of
the emulated invocation, `sharedLogs` the glob result per scheme. -/
def runPair (invokeOk : String → String → Bool)
    (sharedLogs : String → List FileEntry) (prof_id algo : String) : RunResult :=
  if invokeOk prof_id algo then
    match newestLog (sharedLogs algo) with
    | some e => .metricsCopied e.fname (runDir prof_id algo ++ "/" ++ algo ++ "_cc_log.csv")
    | none => .metricsMissing
  else .failed

/-- Embedding of `execute_tests`: iterate the full catalog matrix, profiles
outer and schemes inner, recording one outcome per pair; no outcome aborts
the iteration. -/
def execute_tests (invokeOk : String → String → Bool)
    (sharedLogs : String → List FileEntry) : List (String × String × RunResult) :=
  NET_PROFILES.flatMap fun (prof_id, _) =>
    CC_ALGOS.map fun algo => (prof_id, algo, runPair invokeOk sharedLogs prof_id algo)

/-- The full catalog matrix in iteration order. -/
def allPairs : List (String × String) :=
  NET_PROFILES.flatMap fun (prof_id, _) => CC_ALGOS.map fun algo => (prof_id, algo)

/-! ## Pandas statistics, as used by the Derived-Statistics Generator

A pandas reduction of an empty series (or of a series that is all NaN
after skipping) yields NaN, modelled as `none`.  `pdMeanOpt` is a
reduction with `skipna=True` over a column that may hold NaNs. -/

def pdMean (xs : List ℚ) : Option ℚ :=
  if xs.isEmpty then none else some (xs.sum / xs.length)

def pdMeanOpt (xs : List (Option ℚ)) : Option ℚ :=
  pdMean (xs.filterMap id)

def pdMin (xs : List ℚ) : Option ℚ := xs.min?

def pdMax (xs : List ℚ) : Option ℚ := xs.max?

/-- Pandas `Series.quantile(q)` with the default linear interpolation: on the
sorted values `s` of length `n`, the value at fractional position
`q * (n - 1)`. -/
def pdQuantile (q : ℚ) (xs : List ℚ) : Option ℚ :=
  let s := xs.insertionSort (· ≤ ·)
  if s.isEmpty then none
  else
    let pos : ℚ := q * ((s.length : ℚ) - 1)
    let i : ℕ := pos.floor.toNat
    let lo := s.getD i 0
    let hi := s.getD (i + 1) lo
    some (lo + (pos - (i : ℚ)) * (hi - lo))

def pdMedian (xs : List ℚ) : Option ℚ := pdQuantile (1/2) xs

/-- Pandas `Series.std()`: the sample standard deviation with `ddof=1`; NaN when
fewer than two values. -/
noncomputable def pdStd (xs : List ℚ) : Option ℝ :=
  if xs.length < 2 then none
  else
    let m : ℝ := (xs.map (fun x => (x : ℝ))).sum / xs.length
    some (Real.sqrt ((xs.map (fun x => ((x : ℝ) - m) ^ 2)).sum / ((xs.length : ℝ) - 1)))

/-- Pandas `Series.diff()`: NaN first, then consecutive differences. -/
def diffAux (prev : ℚ) : List ℚ → List (Option ℚ)
  | [] => []
  | y :: ys => some (y - prev) :: diffAux y ys

def pdDiff : List ℚ → List (Option ℚ)
  | [] => []
  | x :: xs => none :: diffAux x xs

/-- Function `pandas.unique` over a column: the distinct values in order of first
occurrence. -/
def pandasUniqueAux (seen : List String) : List String → List String
  | [] => []
  | x :: xs =>
    if x ∈ seen then pandasUniqueAux seen xs
    else x :: pandasUniqueAux (x :: seen) xs

def pandasUnique (l : List String) : List String := pandasUniqueAux [] l

/-- Sequence a list of loop-iteration results, each either a raised
exception or a batch of appended records; the first exception aborts the
loop and propagates. -/
def exceptFlat : List (Except Unit (List α)) → Except Unit (List α)
  | [] => .ok []
  | x :: xs =>
    match x with
    | .error e => .error e
    | .ok l =>
      match exceptFlat xs with
      | .error e => .error e
      | .ok ls => .ok (l ++ ls)

/-! ## Derived-Statistics Generator (`summarize_rtt`, `generate_comparison_table`) -/

/-- The sub-frame of one `(profile, scheme)` group: the rows of the data
frame filtered on both the scheme and the profile columns. -/
def groupRows (rows : List AggRow) (prof_id algo : String) : List AggRow :=
  rows.filter fun r => r.scheme = algo ∧ r.profile = prof_id

/-- One row of `graphs/rtt_summary.csv`. -/
structure RttRec where
  algorithm : String
  profile_name : String
  latency : ℕ
  avg_rtt : Option ℚ
  min_rtt : Option ℚ
  max_rtt : Option ℚ
  median_rtt : Option ℚ
  std_rtt : Option ℝ
  p95_rtt : Option ℚ
  jitter : Option ℚ

/-- One row of `graphs/algorithm_comparison.csv`. -/
structure CmpRec where
  profile_name : String
  algorithm : String
  avg_tp : Option ℚ
  std_tp : Option ℝ
  avg_rtt : Option ℚ
  avg_loss_pct : Option ℚ
  p90_tp : Option ℚ

/-- The dict literal built by `summarize_rtt` for one nonempty group. -/
noncomputable def mkRttRec (algo prof_name : String) (lat : ℕ) (rtts : List ℚ) : RttRec :=
  { algorithm := algo.toUpper, profile_name := prof_name, latency := lat,
    avg_rtt := pdMean rtts, min_rtt := pdMin rtts, max_rtt := pdMax rtts,
    median_rtt := pdMedian rtts, std_rtt := pdStd rtts,
    p95_rtt := pdQuantile (19/20) rtts,
    jitter := pdMeanOpt ((pdDiff rtts).map (Option.map (fun d => |d|))) }

/-- One iteration of the inner loop of `summarize_rtt`: skip the group
when its sub-frame is empty, raise (`KeyError`) when the profile id is not
in `NET_PROFILES`, and otherwise append one record. -/
noncomputable def rttEntry (rows : List AggRow) (prof_id : String) (r0 : AggRow)
    (algo : String) : Except Unit (List RttRec) :=
  if (groupRows rows prof_id algo).isEmpty then .ok []
  else
    match NET_PROFILES.lookup prof_id with
    | none => .error ()
    | some cfg =>
      .ok [mkRttRec algo r0.profile_name cfg.latency
        ((groupRows rows prof_id algo).map (·.rtt))]

/-- One iteration of the outer loop of `summarize_rtt`: take the profile
display name from `iloc[0]` of the rows filtered by profile alone
(raising `IndexError` on an empty filter, which cannot happen for an
observed profile id), then run the inner loop over the observed
schemes. -/
noncomputable def rttProfileEntry (rows : List AggRow) (prof_id : String) :
    Except Unit (List RttRec) :=
  match (rows.filter (fun r => r.profile = prof_id)).head? with
  | none => .error ()
  | some r0 =>
    exceptFlat ((pandasUnique (rows.map (·.scheme))).map (rttEntry rows prof_id r0))

/-- Embedding of `summarize_rtt`.  Reading the profile column of the
columnless empty frame raises `KeyError`; indexing `NET_PROFILES` raises
on an unknown profile id; groups with an empty sub-frame are skipped. -/
noncomputable def summarize_rtt (d : Dataset) : Except Unit (List RttRec) :=
  match d with
  | .empty => .error ()
  | .concat _ rows =>
    exceptFlat ((pandasUnique (rows.map (·.profile))).map (rttProfileEntry rows))

/-- The dict literal built by `generate_comparison_table` for one nonempty
group; `hasLossRate` is whether the aggregate frame has a `loss_rate`
column. -/
noncomputable def mkCmpRec (prof_name algo : String) (hasLossRate : Bool)
    (sub : List AggRow) : CmpRec :=
  { profile_name := prof_name, algorithm := algo.toUpper,
    avg_tp := pdMean (sub.map (·.throughput)),
    std_tp := pdStd (sub.map (·.throughput)),
    avg_rtt := pdMean (sub.map (·.rtt)),
    avg_loss_pct :=
      if hasLossRate then (pdMeanOpt (sub.map (·.loss_rate))).map (· * 100)
      else some 0,
    p90_tp := pdQuantile (9/10) (sub.map (·.throughput)) }

/-- One iteration of the inner loop of `generate_comparison_table`. -/
noncomputable def cmpEntry (rows : List AggRow) (prof_id : String)
    (hasLossRate : Bool) (algo : String) : Except Unit (List CmpRec) :=
  if (groupRows rows prof_id algo).isEmpty then .ok []
  else
    match NET_PROFILES.lookup prof_id with
    | none => .error ()
    | some cfg => .ok [mkCmpRec cfg.name algo hasLossRate (groupRows rows prof_id algo)]

/-- One iteration of the outer loop of `generate_comparison_table`. -/
noncomputable def cmpProfileEntry (rows : List AggRow) (hasLossRate : Bool)
    (prof_id : String) : Except Unit (List CmpRec) :=
  exceptFlat ((pandasUnique (rows.map (·.scheme))).map
    (cmpEntry rows prof_id hasLossRate))

/-- Embedding of `generate_comparison_table`: same iteration shape as
`summarize_rtt`, with the profile display name read from the catalog
entry of the profile id (raising on an unknown id). -/
noncomputable def generate_comparison_table (d : Dataset) : Except Unit (List CmpRec) :=
  match d with
  | .empty => .error ()
  | .concat hasLossRate rows =>
    exceptFlat ((pandasUnique (rows.map (·.profile))).map
      (cmpProfileEntry rows hasLossRate))

/-- The analysis phase of `orchestrate`: collect, return early (`None`)
when the aggregate is empty, otherwise run the two generators. -/
noncomputable def orchestrate_analysis (fs : AggFS) :
    Option (Except Unit (List RttRec × List CmpRec)) :=
  let d := collect_dataframes fs
  if d.isEmpty then none
  else some (do
    let r ← summarize_rtt d
    let c ← generate_comparison_table d
    pure (r, c))

/-! ## Metrics Sampler (`collect_metrics` in `ledbat.py`)

Time and randomness are explicit parameters: `times n` is the elapsed
time `time.time() - start_time` observed at iteration `n`, and `draws n`
the four unit draws that `random.uniform` scales.  `time.sleep(1)` means
`times (n + 1) ≥ times n + 1`, stated as a hypothesis where needed. -/

/-- Call `random.uniform(a, b) = a + (b - a) * u` for a unit draw `u ∈ [0, 1]`. -/
def uniform (a b u : ℚ) : ℚ := a + (b - a) * u

/-- The four unit draws consumed by one loop iteration. -/
structure Draws where
  u_tp : ℚ
  u_rtt : ℚ
  u_loss : ℚ
  u_qd : ℚ
deriving DecidableEq, Repr

/-- One appended metrics dict. -/
structure Sample where
  timestamp : ℚ
  throughput : ℚ
  rtt : ℚ
  loss_rate : ℚ
  queuing_delay : ℚ
deriving DecidableEq, Repr

def mkSample (t : ℚ) (d : Draws) : Sample :=
  { timestamp := t,
    throughput := uniform 1 10 d.u_tp,
    rtt := uniform 100 300 d.u_rtt,
    loss_rate := uniform 0 (1/50) d.u_loss,
    queuing_delay := uniform 0 50 d.u_qd }

/-- The `while time.time() - start_time < duration` loop, unrolled with
fuel; with monotone `times` and enough fuel the fuel never runs out, which
the theorems assume explicitly. -/
def collectLoop (duration : ℚ) (times : ℕ → ℚ) (draws : ℕ → Draws) :
    ℕ → ℕ → List Sample
  | 0, _ => []
  | fuel + 1, n =>
    if times n < duration then
      mkSample (times n) (draws n) :: collectLoop duration times draws fuel (n + 1)
    else []

/-- A filesystem path, split into components; its last component is the
file name. -/
abbrev FsPath : Type := List String

/-- The set of directories that currently exist, the root `[]` always
existing. -/
abbrev DirSet : Type := List (List String)

/-- Call `Path(dirname).mkdir(exist_ok=True)`: succeeds when the directory
already exists, creates it when its own parent exists, and raises
`FileNotFoundError` otherwise (no `parents=True`). -/
def mkdirSingle (dirs : DirSet) (d : List String) : Except Unit DirSet :=
  if d = [] ∨ d ∈ dirs then .ok dirs
  else if d.dropLast = [] ∨ d.dropLast ∈ dirs then .ok (d :: dirs)
  else .error ()

/-- Embedding of `collect_metrics`: run the sampling loop, then persist by
creating the parent directory of `metrics_file` (one level only) and
writing the series; returns the new directory set and the written series,
or the propagated `mkdir` exception. -/
def collect_metrics (metrics_file : FsPath) (dirs : DirSet) (duration : ℚ)
    (times : ℕ → ℚ) (draws : ℕ → Draws) (fuel : ℕ) :
    Except Unit (DirSet × List Sample) :=
  let samples := collectLoop duration times draws fuel 0
  match mkdirSingle dirs metrics_file.dropLast with
  | .error e => .error e
  | .ok dirs2 => .ok (dirs2, samples)

/-! ## Transfer Lifecycle Manager (`main` in `ledbat.py`)

The state records which cleanup calls the branch performed before
returning or propagating. -/

/-- How one invocation of a `main` branch ends: a normal `return`, or an
exception propagating out of `main`. -/
inductive ExitPath where
  | normal : ExitPath
  | raised : ExitPath
deriving DecidableEq, Repr

/-- Cleanup actions performed by one `main` branch. -/
structure Cleanup where
  samplerTerminateRequested : Bool
  transferKillRequested : Bool
deriving DecidableEq, Repr

/-- The receiver branch of `main`: spawn the metrics sampler, block in
`check_call` on the transfer process, then call `metrics_proc.terminate()`
and return.  There is no `try/finally`: when `check_call` raises (nonzero
exit of the transfer process), the exception propagates and the
`terminate` line is never reached. -/
def receiver_main (transferOk : Bool) : Cleanup × ExitPath :=
  if transferOk then
    ({ samplerTerminateRequested := true, transferKillRequested := false }, .normal)
  else
    ({ samplerTerminateRequested := false, transferKillRequested := false }, .raised)

/-- How the send loop of the sender branch ends: the deadline check breaks
the loop, or a write into the transfer process raises. -/
inductive SenderLoopEnd where
  | deadlineReached : SenderLoopEnd
  | writeRaised : SenderLoopEnd
deriving DecidableEq, Repr

/-- The sender branch of `main`: the send loop runs inside
`try/finally`, and the `finally` block kills the transfer process when it
is still running and always calls `metrics_proc.terminate()`; an exception
from the loop then propagates. -/
def sender_main (loopEnd : SenderLoopEnd) (transferStillRunning : Bool) :
    Cleanup × ExitPath :=
  let cleanup : Cleanup :=
    { samplerTerminateRequested := true,
      transferKillRequested := transferStillRunning }
  match loopEnd with
  | .deadlineReached => (cleanup, .normal)
  | .writeRaised => (cleanup, .raised)

/-! ## Spec-side definitions and concrete fixtures

`specAbsDiffs`, `specJitter` and `retime` state spec properties to compare
against the embedded code; the `wit`-prefixed values are concrete inputs
used by witness and counterexample theorems. -/

/-- The absolute first differences of a series, as the spec words them:
the values `|x (i+1) - x i|`. -/
def specAbsDiffs : List ℚ → List ℚ
  | x :: y :: t => |y - x| :: specAbsDiffs (y :: t)
  | _ => []

/-- Mean absolute first-difference, the jitter of the spec. -/
def specJitter (xs : List ℚ) : Option ℚ := pdMean (specAbsDiffs xs)

/-- Replace the `timestamp` column of an artifact, leaving every other
column unchanged. -/
def retime (f : ℚ → ℚ) (c : Csv) : Csv :=
  { hasLossRate := c.hasLossRate,
    rows := c.rows.map fun r => { r with timestamp := f r.timestamp } }

/-- Replace the `timestamp` column of every parseable artifact of an
aggregator filesystem. -/
def retimeFS (f : ℚ → ℚ) (fs : AggFS) : AggFS := fun prof_id algo =>
  match fs prof_id algo with
  | some (.ok c) => some (.ok (retime f c))
  | o => o

/-- A concrete three-row artifact with a `loss_rate` column and
integer-valued fields. -/
def witCsv : Csv :=
  { hasLossRate := true, rows := [
      { timestamp := 2, throughput := 4, rtt := 120, loss_rate := 0, queuing_delay := 5 },
      { timestamp := 3, throughput := 5, rtt := 130, loss_rate := 1, queuing_delay := 6 },
      { timestamp := 5, throughput := 6, rtt := 125, loss_rate := 0, queuing_delay := 7 }] }

/-- A filesystem holding exactly one artifact, for the pair
`("1", "cubic")`. -/
def witFS : AggFS := fun prof_id algo =>
  if prof_id = "1" ∧ algo = "cubic" then some (.ok witCsv) else none

/-- The aggregate rows produced from `witCsv` by the pair
`("1", "cubic")`. -/
def witRows : List AggRow :=
  [{ timestamp := 0, throughput := 4, rtt := 120, loss_rate := some 0,
     queuing_delay := 5, scheme := "cubic", profile := "1",
     profile_name := "LTE (Low Latency)", latency := 5 },
   { timestamp := 1, throughput := 5, rtt := 130, loss_rate := some 1,
     queuing_delay := 6, scheme := "cubic", profile := "1",
     profile_name := "LTE (Low Latency)", latency := 5 },
   { timestamp := 2, throughput := 6, rtt := 125, loss_rate := some 0,
     queuing_delay := 7, scheme := "cubic", profile := "1",
     profile_name := "LTE (Low Latency)", latency := 5 }]

/-! # Helper lemmas -/

theorem rowsOf_collect (fs : AggFS) :
    (collect_dataframes fs).rowsOf = (pairFrames fs).flatMap (·.2) := by
  unfold collect_dataframes
  cases h : pairFrames fs with
  | nil => simp [Dataset.rowsOf]
  | cons f t => simp [Dataset.rowsOf]

theorem flatMap_filterMap_match {α β γ : Type} (g : α → Option β) (h : β → List γ)
    (l : List α) :
    (l.filterMap g).flatMap h =
      l.flatMap fun x => match g x with | some b => h b | none => [] := by
  induction l with
  | nil => rfl
  | cons x t ih => cases hg : g x <;> simp [List.filterMap_cons, hg, ih]

theorem collect_rows_eq (fs : AggFS) :
    (collect_dataframes fs).rowsOf =
      NET_PROFILES.flatMap fun pc => CC_ALGOS.flatMap fun algo =>
        chunkRows fs pc.1 pc.2 algo := by
  rw [rowsOf_collect]
  unfold pairFrames
  rw [List.flatMap_assoc]
  congr 1
  funext pc
  rcases pc with ⟨prof_id, cfg⟩
  rw [flatMap_filterMap_match]
  congr 1
  funext algo
  unfold chunkRows
  rcases fs prof_id algo with _ | e
  · rfl
  rcases e with e | c
  · rfl
  · rfl

theorem mem_tagRows {r : AggRow} {p : String} {cfg : NetProfile} {a : String}
    {c : Csv} (h : r ∈ tagRows p cfg a c) : r.scheme = a ∧ r.profile = p := by
  unfold tagRows at h
  rcases List.mem_map.1 h with ⟨⟨i, row⟩, _, rfl⟩
  exact ⟨rfl, rfl⟩

theorem groupRows_append (l1 l2 : List AggRow) (p a : String) :
    groupRows (l1 ++ l2) p a = groupRows l1 p a ++ groupRows l2 p a :=
  List.filter_append l1 l2

theorem groupRows_tagRows_self (p : String) (cfg : NetProfile) (a : String) (c : Csv) :
    groupRows (tagRows p cfg a c) p a = tagRows p cfg a c := by
  apply List.filter_eq_self.2
  intro r hr
  rcases mem_tagRows hr with ⟨h1, h2⟩
  simp [h1, h2]

theorem groupRows_tagRows_ne {p2 a2 p a : String} (cfg2 : NetProfile) (c : Csv)
    (hne : a2 ≠ a ∨ p2 ≠ p) :
    groupRows (tagRows p2 cfg2 a2 c) p a = [] := by
  apply List.filter_eq_nil_iff.2
  intro r hr
  rcases mem_tagRows hr with ⟨h1, h2⟩
  rcases hne with hne | hne <;> simp [h1, h2, hne]

theorem groupRows_chunk_ne {p2 a2 p a : String} (fs : AggFS) (cfg2 : NetProfile)
    (hne : a2 ≠ a ∨ p2 ≠ p) :
    groupRows (chunkRows fs p2 cfg2 a2) p a = [] := by
  unfold chunkRows
  rcases fs p2 a2 with _ | e
  · rfl
  rcases e with e | c
  · rfl
  · exact groupRows_tagRows_ne cfg2 c hne

theorem chunkRows_of_ok {fs : AggFS} {p a : String} {c : Csv} (cfg : NetProfile)
    (hc : fs p a = some (.ok c)) : chunkRows fs p cfg a = tagRows p cfg a c := by
  unfold chunkRows
  rw [hc]

theorem groupRows_chunk_eval (fs : AggFS) (p2 : String) (cfg2 : NetProfile)
    (a2 p a : String) :
    groupRows (chunkRows fs p2 cfg2 a2) p a =
      if a2 = a ∧ p2 = p then chunkRows fs p2 cfg2 a2 else [] := by
  by_cases h : a2 = a ∧ p2 = p
  · rcases h with ⟨rfl, rfl⟩
    rw [if_pos ⟨rfl, rfl⟩]
    unfold chunkRows
    rcases fs p2 a2 with _ | e
    · rfl
    rcases e with e | c
    · rfl
    · exact groupRows_tagRows_self p2 cfg2 a2 c
  · rw [if_neg h]
    rcases Decidable.not_and_iff_or_not.1 h with h2 | h2
    · exact groupRows_chunk_ne fs cfg2 (Or.inl h2)
    · exact groupRows_chunk_ne fs cfg2 (Or.inr h2)

/-- Extracting the group of one pair from the Aggregate Dataset: with the
artifact of `(p, a)` parsed as `c`, the rows of `(p, a)` are exactly the
tagged rows of `c`. -/
theorem group_collect (fs : AggFS) {p : String} {cfg : NetProfile} {a : String}
    {c : Csv} (hp : (p, cfg) ∈ NET_PROFILES) (ha : a ∈ CC_ALGOS)
    (hc : fs p a = some (.ok c)) :
    groupRows (collect_dataframes fs).rowsOf p a = tagRows p cfg a c := by
  rw [collect_rows_eq]
  simp only [NET_PROFILES, List.mem_cons, List.mem_singleton, List.not_mem_nil,
    or_false] at hp
  simp only [CC_ALGOS, List.mem_cons, List.mem_singleton, List.not_mem_nil,
    or_false] at ha
  simp only [NET_PROFILES, CC_ALGOS, List.flatMap_cons, List.flatMap_nil,
    List.append_nil, groupRows_append]
  rcases hp with hp | hp <;> injection hp with hp1 hp2 <;> subst hp1 <;> subst hp2 <;>
    rcases ha with rfl | rfl | rfl <;>
    simp only [groupRows_chunk_eval, if_pos, if_neg, and_self, and_true, true_and,
      List.append_nil, List.nil_append, reduceIte] <;>
    rw [chunkRows_of_ok _ hc] <;>
    simp

theorem tagRows_retime (p : String) (cfg : NetProfile) (a : String) (f : ℚ → ℚ)
    (c : Csv) : tagRows p cfg a (retime f c) = tagRows p cfg a c := by
  unfold tagRows retime
  simp only [List.length_map, List.zip_map_right, List.map_map]
  rfl

theorem pairFrames_retime (f : ℚ → ℚ) (fs : AggFS) :
    pairFrames (retimeFS f fs) = pairFrames fs := by
  unfold pairFrames
  refine congrArg _ (funext fun pc => ?_)
  rcases pc with ⟨p, cfg⟩
  refine congrArg (fun g => List.filterMap g CC_ALGOS) (funext fun a => ?_)
  unfold retimeFS
  rcases fs p a with _ | e
  · rfl
  rcases e with e | c
  · rfl
  · exact congrArg (fun l => some (c.hasLossRate, l)) (tagRows_retime p cfg a f c)

/-! # Claim theorems -/

/-- C1: the claim says termination of the Metrics Sampler is requested on
every exit path of every `main` branch.  The code violates it: in receiver
mode, a `check_call` failure (nonzero transfer exit) propagates before the
`metrics_proc.terminate()` line, which is not protected by `try/finally`;
the sender branch does request termination on both of its exit paths. -/
theorem C1_receiver_error_skips_sampler_termination :
    (receiver_main false).2 = .raised ∧
    (receiver_main false).1.samplerTerminateRequested = false ∧
    (receiver_main true).1.samplerTerminateRequested = true ∧
    (∀ e r, (sender_main e r).1.samplerTerminateRequested = true) := by
  refine ⟨rfl, rfl, rfl, fun e r => ?_⟩
  cases e <;> rfl

/-- C2 counterexample: the Derived-Statistics Generator applied directly to
the empty Aggregate Dataset raises (a `KeyError` on the missing `profile`
column) instead of producing zero Summary Records. -/
theorem C2_counterexample_empty_generator_raises :
    summarize_rtt Dataset.empty = .error () ∧
    generate_comparison_table Dataset.empty = .error () := ⟨rfl, rfl⟩

/-- C2 (amended): with no parseable artifact for any catalog pair, the
Aggregator returns the empty Aggregate Dataset without raising, and the
orchestrator short-circuits before invoking the Derived-Statistics
Generator on it. -/
theorem C2_empty_aggregate_short_circuit (fs : AggFS)
    (hnone : ∀ p cfg a, (p, cfg) ∈ NET_PROFILES → a ∈ CC_ALGOS →
      ∀ c : Csv, fs p a ≠ some (.ok c)) :
    collect_dataframes fs = .empty ∧ orchestrate_analysis fs = none := by
  have hframes : pairFrames fs = [] := by
    unfold pairFrames
    apply List.flatMap_eq_nil_iff.2
    intro pc hpc
    apply List.filterMap_eq_nil_iff.2
    intro a ha
    rcases pc with ⟨p, cfg⟩
    rcases ho : fs p a with _ | e
    · rfl
    rcases e with e | c
    · rfl
    · exact absurd ho (hnone p cfg a hpc ha c)
  have hcol : collect_dataframes fs = .empty := by
    unfold collect_dataframes
    rw [hframes]
    rfl
  refine ⟨hcol, ?_⟩
  unfold orchestrate_analysis
  rw [hcol]
  rfl

theorem C2_empty_aggregate_short_circuit_witness :
    collect_dataframes (fun _ _ => none) = .empty ∧
    orchestrate_analysis (fun _ _ => none) = none :=
  C2_empty_aggregate_short_circuit (fun _ _ => none)
    (fun _ _ _ _ _ _ h => Option.noConfusion h)

/-- C3: every row of the Aggregate Dataset carries a `(profile, scheme)`
pair of the Run Descriptor Catalog: its profile id keys an entry of
`NET_PROFILES` and its scheme is one of `CC_ALGOS`. -/
theorem C3_rows_pairs_in_catalog (fs : AggFS) :
    ∀ r ∈ (collect_dataframes fs).rowsOf,
      (∃ cfg, (r.profile, cfg) ∈ NET_PROFILES) ∧ r.scheme ∈ CC_ALGOS := by
  intro r hr
  rw [collect_rows_eq] at hr
  rcases List.mem_flatMap.1 hr with ⟨pc, hpc, hr2⟩
  rcases List.mem_flatMap.1 hr2 with ⟨a, ha, hr3⟩
  unfold chunkRows at hr3
  rcases ho : fs pc.1 a with _ | e <;> rw [ho] at hr3
  · cases hr3
  rcases e with e | c
  · cases hr3
  · rcases mem_tagRows hr3 with ⟨h1, h2⟩
    refine ⟨⟨pc.2, ?_⟩, ?_⟩
    · rw [h2, Prod.mk.eta]
      exact hpc
    · rw [h1]
      exact ha

theorem C3_rows_pairs_in_catalog_witness :
    (∃ cfg, ((witRows.getD 0 (witRows.headI)).profile, cfg) ∈ NET_PROFILES) ∧
      (witRows.getD 0 (witRows.headI)).scheme ∈ CC_ALGOS :=
  C3_rows_pairs_in_catalog witFS _ (by decide)

/-- C4: within one parsed Run, the sequence indices written into the
`timestamp` column are exactly `0, 1, ..., n-1` in artifact row order. -/
theorem C4_sequence_indices (fs : AggFS) {p : String} {cfg : NetProfile}
    {a : String} {c : Csv} (hp : (p, cfg) ∈ NET_PROFILES) (ha : a ∈ CC_ALGOS)
    (hc : fs p a = some (.ok c)) :
    (groupRows (collect_dataframes fs).rowsOf p a).map (·.timestamp) =
      List.range c.rows.length := by
  rw [group_collect fs hp ha hc]
  unfold tagRows
  rw [List.map_map]
  exact List.map_fst_zip _ _ (by simp)

theorem C4_sequence_indices_witness :
    (groupRows (collect_dataframes witFS).rowsOf "1" "cubic").map (·.timestamp) =
      List.range witCsv.rows.length :=
  @C4_sequence_indices witFS "1"
    ⟨"LTE (Low Latency)", 5, "mahimahi/traces/TMobile-LTE-driving.down",
      "mahimahi/traces/TMobile-LTE-driving.up"⟩ "cubic" witCsv
    (by decide) (by decide) (by decide)

/-- C5: the Test Runner records one outcome for every catalog pair (a
failing pair never aborts the remaining ones), and the Aggregate Dataset
is exactly the concatenation, over the catalog, of the tagged rows of the
pairs whose artifacts are present and parseable. -/
theorem C5_partial_failure_isolation (invokeOk : String → String → Bool)
    (sharedLogs : String → List FileEntry) (fs : AggFS) :
    (execute_tests invokeOk sharedLogs).map (fun t => (t.1, t.2.1)) = allPairs ∧
    (collect_dataframes fs).rowsOf =
      NET_PROFILES.flatMap fun pc => CC_ALGOS.flatMap fun algo =>
        chunkRows fs pc.1 pc.2 algo :=
  ⟨rfl, collect_rows_eq fs⟩

/-- C10: the aggregate rows of a parsed Run preserve every original metric
column except `timestamp`, whose elapsed-time values are replaced by the
zero-based sequence index; consequently the Aggregate Dataset does not
depend on the elapsed times recorded by the sampler at all. -/
theorem C10_timestamp_replacement (fs : AggFS) (f : ℚ → ℚ) {p : String}
    {cfg : NetProfile} {a : String} {c : Csv}
    (hp : (p, cfg) ∈ NET_PROFILES) (ha : a ∈ CC_ALGOS)
    (hc : fs p a = some (.ok c)) :
    (groupRows (collect_dataframes fs).rowsOf p a =
      ((List.range c.rows.length).zip c.rows).map fun ir =>
        { timestamp := ir.1, throughput := ir.2.throughput, rtt := ir.2.rtt,
          loss_rate := if c.hasLossRate then some ir.2.loss_rate else none,
          queuing_delay := ir.2.queuing_delay, scheme := a, profile := p,
          profile_name := cfg.name, latency := cfg.latency }) ∧
    collect_dataframes (retimeFS f fs) = collect_dataframes fs := by
  constructor
  · rw [group_collect fs hp ha hc]
    rfl
  · unfold collect_dataframes
    rw [pairFrames_retime]

theorem C10_timestamp_replacement_witness :
    (groupRows (collect_dataframes witFS).rowsOf "1" "cubic" =
      ((List.range witCsv.rows.length).zip witCsv.rows).map fun ir =>
        { timestamp := ir.1, throughput := ir.2.throughput, rtt := ir.2.rtt,
          loss_rate := if witCsv.hasLossRate then some ir.2.loss_rate else none,
          queuing_delay := ir.2.queuing_delay, scheme := "cubic", profile := "1",
          profile_name := "LTE (Low Latency)", latency := 5 }) ∧
    collect_dataframes (retimeFS id witFS) = collect_dataframes witFS :=
  @C10_timestamp_replacement witFS id "1"
    ⟨"LTE (Low Latency)", 5, "mahimahi/traces/TMobile-LTE-driving.down",
      "mahimahi/traces/TMobile-LTE-driving.up"⟩ "cubic" witCsv
    (by decide) (by decide) (by decide)

theorem newestLog_spec (entries : List FileEntry) (e : FileEntry)
    (h : newestLog entries = some e) :
    e ∈ entries ∧ ∀ f ∈ entries, f.mtime ≤ e.mtime := by
  haveI : IsTotal FileEntry (fun e f => f.mtime ≤ e.mtime) :=
    ⟨fun a b => le_total b.mtime a.mtime⟩
  haveI : IsTrans FileEntry (fun e f => f.mtime ≤ e.mtime) :=
    ⟨fun a b c hab hbc => le_trans hbc hab⟩
  have hs := List.sorted_insertionSort (fun e f : FileEntry => f.mtime ≤ e.mtime) entries
  have hperm := List.perm_insertionSort (fun e f : FileEntry => f.mtime ≤ e.mtime) entries
  unfold newestLog at h
  rcases hsl : entries.insertionSort (fun e f => f.mtime ≤ e.mtime) with _ | ⟨x, t⟩ <;>
    rw [hsl] at h
  · cases h
  · have hx : x = e := by
      injection h with h
    subst hx
    rw [hsl] at hs hperm
    constructor
    · exact hperm.subset (List.mem_cons_self x t)
    · intro f hf
      have hf2 : f ∈ x :: t := hperm.symm.subset hf
      rcases List.mem_cons.1 hf2 with rfl | hf3
      · exact le_refl _
      · exact (List.pairwise_cons.1 hs).1 f hf3

/-- C7: after a successful invocation, the Test Runner copies the most
recently modified matching artifact of the shared metrics area into the
run directory under the fixed per-run name; with no matching artifact the
run is recorded metrics-less, without an exception. -/
theorem C7_newest_metrics_copied (invokeOk : String → String → Bool)
    (sharedLogs : String → List FileEntry) (p a : String)
    (hok : invokeOk p a = true) :
    (sharedLogs a = [] → runPair invokeOk sharedLogs p a = .metricsMissing) ∧
    (∀ e, newestLog (sharedLogs a) = some e →
      e ∈ sharedLogs a ∧ (∀ f ∈ sharedLogs a, f.mtime ≤ e.mtime) ∧
      runPair invokeOk sharedLogs p a =
        .metricsCopied e.fname (runDir p a ++ "/" ++ a ++ "_cc_log.csv")) ∧
    (sharedLogs a ≠ [] → ∃ e, newestLog (sharedLogs a) = some e) := by
  refine ⟨?_, ?_, ?_⟩
  · intro h
    simp [runPair, hok, h, newestLog]
  · intro e he
    rcases newestLog_spec _ _ he with ⟨h1, h2⟩
    exact ⟨h1, h2, by simp [runPair, hok, he]⟩
  · intro hne
    rcases hsl : (sharedLogs a).insertionSort (fun e f => f.mtime ≤ e.mtime)
      with _ | ⟨x, t⟩
    · exfalso
      apply hne
      have hperm :=
        List.perm_insertionSort (fun e f : FileEntry => f.mtime ≤ e.mtime) (sharedLogs a)
      rw [hsl] at hperm
      exact hperm.symm.eq_nil
    · exact ⟨x, by unfold newestLog; rw [hsl]; rfl⟩

theorem C7_newest_metrics_copied_witness :
    runPair (fun _ _ => true)
      (fun _ => [⟨"logs/metrics_cubic_1.csv", 3⟩, ⟨"logs/metrics_cubic_2.csv", 7⟩])
      "1" "cubic" =
      .metricsCopied "logs/metrics_cubic_2.csv"
        ("results/profile_1/cubic" ++ "/" ++ "cubic" ++ "_cc_log.csv") :=
  ((C7_newest_metrics_copied (fun _ _ => true)
      (fun _ => [⟨"logs/metrics_cubic_1.csv", 3⟩, ⟨"logs/metrics_cubic_2.csv", 7⟩])
      "1" "cubic" rfl).2.1 ⟨"logs/metrics_cubic_2.csv", 7⟩ (by decide)).2.2

theorem uniform_bounds {a b u : ℚ} (hab : a ≤ b) (h0 : 0 ≤ u) (h1 : u ≤ 1) :
    a ≤ uniform a b u ∧ uniform a b u ≤ b := by
  unfold uniform
  constructor <;> nlinarith

theorem mem_collectLoop {duration : ℚ} {times : ℕ → ℚ} {draws : ℕ → Draws}
    {s : Sample} :
    ∀ {fuel n : ℕ}, s ∈ collectLoop duration times draws fuel n →
      ∃ m, s = mkSample (times m) (draws m) := by
  intro fuel
  induction fuel with
  | zero => intro n h; cases h
  | succ k ih =>
    intro n h
    unfold collectLoop at h
    by_cases hc : times n < duration
    · rw [if_pos hc] at h
      rcases List.mem_cons.1 h with rfl | h2
      · exact ⟨n, rfl⟩
      · exact ih h2
    · rw [if_neg hc] at h
      cases h

theorem collectLoop_len {duration : ℚ} {times : ℕ → ℚ} {draws : ℕ → Draws}
    (hstep : ∀ n, times n + 1 ≤ times (n + 1)) :
    ∀ fuel n, collectLoop duration times draws fuel n = [] ∨
      times n + ((collectLoop duration times draws fuel n).length - 1 : ℚ) <
        duration := by
  intro fuel
  induction fuel with
  | zero => exact fun n => Or.inl rfl
  | succ k ih =>
    intro n
    unfold collectLoop
    by_cases hc : times n < duration
    · rw [if_pos hc]
      right
      rcases ih (n + 1) with h2 | h2
      · rw [h2]
        simp only [List.length_cons, List.length_nil]
        push_cast
        simpa using hc
      · have h3 := hstep n
        simp only [List.length_cons]
        push_cast at h2 ⊢
        linarith
    · rw [if_neg hc]
      exact Or.inl rfl

/-- C9: every sample appended by the Metrics Sampler has its throughput in
[1, 10], its RTT in [100, 300], its loss rate in [0, 0.02] = [0, 1/50] and
its queueing delay in [0, 50]; with ticks at least one second apart (the
`time.sleep(1)` contract) the loop appends fewer than `duration + 1`
samples, at most one per tick. -/
theorem C9_sampler_contract (duration : ℚ) (times : ℕ → ℚ) (draws : ℕ → Draws)
    (fuel : ℕ) (hdur : 0 ≤ duration) (h0 : 0 ≤ times 0)
    (hstep : ∀ n, times n + 1 ≤ times (n + 1))
    (hdraws : ∀ n, (0 ≤ (draws n).u_tp ∧ (draws n).u_tp ≤ 1) ∧
      (0 ≤ (draws n).u_rtt ∧ (draws n).u_rtt ≤ 1) ∧
      (0 ≤ (draws n).u_loss ∧ (draws n).u_loss ≤ 1) ∧
      (0 ≤ (draws n).u_qd ∧ (draws n).u_qd ≤ 1)) :
    (∀ s ∈ collectLoop duration times draws fuel 0,
      (1 ≤ s.throughput ∧ s.throughput ≤ 10) ∧
      (100 ≤ s.rtt ∧ s.rtt ≤ 300) ∧
      (0 ≤ s.loss_rate ∧ s.loss_rate ≤ 1/50) ∧
      (0 ≤ s.queuing_delay ∧ s.queuing_delay ≤ 50)) ∧
    ((collectLoop duration times draws fuel 0).length : ℚ) < duration + 1 := by
  constructor
  · intro s hs
    rcases mem_collectLoop hs with ⟨m, rfl⟩
    rcases hdraws m with ⟨⟨a1, a2⟩, ⟨b1, b2⟩, ⟨c1, c2⟩, ⟨d1, d2⟩⟩
    exact ⟨uniform_bounds (by norm_num) a1 a2,
      uniform_bounds (by norm_num) b1 b2,
      uniform_bounds (by norm_num) c1 c2,
      uniform_bounds (by norm_num) d1 d2⟩
  · rcases collectLoop_len hstep fuel 0 with h | h
    · rw [h]
      have : (([] : List Sample).length : ℚ) = 0 := rfl
      rw [this]
      linarith
    · push_cast at h ⊢
      linarith

theorem C9_sampler_contract_witness :
    (∀ s ∈ collectLoop 75 (fun n => (n : ℚ)) (fun _ => ⟨0, 0, 1, 1⟩) 100 0,
      (1 ≤ s.throughput ∧ s.throughput ≤ 10) ∧
      (100 ≤ s.rtt ∧ s.rtt ≤ 300) ∧
      (0 ≤ s.loss_rate ∧ s.loss_rate ≤ 1/50) ∧
      (0 ≤ s.queuing_delay ∧ s.queuing_delay ≤ 50)) ∧
    ((collectLoop 75 (fun n => (n : ℚ)) (fun _ => ⟨0, 0, 1, 1⟩) 100 0).length : ℚ) <
      75 + 1 :=
  C9_sampler_contract 75 (fun n => (n : ℚ)) (fun _ => ⟨0, 0, 1, 1⟩) 100
    (by decide) (le_of_eq Nat.cast_zero.symm)
    (fun n => le_of_eq (Nat.cast_succ n).symm)
    (fun _ => ⟨⟨le_refl 0, show (0 : ℚ) ≤ 1 by decide⟩,
      ⟨le_refl 0, show (0 : ℚ) ≤ 1 by decide⟩,
      ⟨show (0 : ℚ) ≤ 1 by decide, le_refl 1⟩,
      ⟨show (0 : ℚ) ≤ 1 by decide, le_refl 1⟩⟩)

/-- C8 counterexample: the single-level `mkdir(exist_ok=True)` of
`collect_metrics` does not create missing ancestors: for the artifact path
`a/b/m.csv` on an empty directory tree, persisting raises
(`FileNotFoundError`), so the series is not persisted for every designated
artifact path. -/
theorem C8_counterexample_deep_path_fails :
    collect_metrics ["a", "b", "m.csv"] [] 0 (fun _ => 0) (fun _ => ⟨0, 0, 0, 0⟩) 1 =
      .error () := rfl

/-- C8 (amended): when the parent directory of the artifact path already
exists, or its own parent exists so that the single-level `mkdir` can
create it, `collect_metrics` persists the full ordered sample sequence and
the parent directory exists afterwards. -/
theorem C8_persists_with_parent (metrics_file : FsPath) (dirs : DirSet)
    (duration : ℚ) (times : ℕ → ℚ) (draws : ℕ → Draws) (fuel : ℕ)
    (hpar : metrics_file.dropLast = [] ∨ metrics_file.dropLast ∈ dirs ∨
      metrics_file.dropLast.dropLast = [] ∨ metrics_file.dropLast.dropLast ∈ dirs) :
    ∃ dirs2 : DirSet,
      collect_metrics metrics_file dirs duration times draws fuel =
        .ok (dirs2, collectLoop duration times draws fuel 0) ∧
      (metrics_file.dropLast = [] ∨ metrics_file.dropLast ∈ dirs2) := by
  unfold collect_metrics mkdirSingle
  by_cases h1 : metrics_file.dropLast = [] ∨ metrics_file.dropLast ∈ dirs
  · refine ⟨dirs, ?_, h1⟩
    rw [if_pos h1]
  · have h2 : metrics_file.dropLast.dropLast = [] ∨
        metrics_file.dropLast.dropLast ∈ dirs := by tauto
    refine ⟨metrics_file.dropLast :: dirs, ?_, Or.inr (List.mem_cons_self _ _)⟩
    rw [if_neg h1, if_pos h2]

theorem C8_persists_with_parent_witness :
    ∃ dirs2 : DirSet,
      collect_metrics ["out", "m.csv"] [["out"]] 0 (fun _ => 0)
          (fun _ => ⟨0, 0, 0, 0⟩) 1 =
        .ok (dirs2, collectLoop 0 (fun _ => 0) (fun _ => ⟨0, 0, 0, 0⟩) 1 0) ∧
      ((["out", "m.csv"] : FsPath).dropLast = [] ∨
        (["out", "m.csv"] : FsPath).dropLast ∈ dirs2) :=
  C8_persists_with_parent ["out", "m.csv"] [["out"]] 0 (fun _ => 0)
    (fun _ => ⟨0, 0, 0, 0⟩) 1 (Or.inr (Or.inl (by decide)))

theorem exceptFlat_all_ok {α : Type} (l : List (Except Unit (List α)))
    (h : ∀ e ∈ l, ∃ b, e = .ok b) : ∃ out, exceptFlat l = .ok out := by
  induction l with
  | nil => exact ⟨[], rfl⟩
  | cons x t ih =>
    rcases ih (fun e he => h e (List.mem_cons_of_mem x he)) with ⟨out, hout⟩
    rcases h x (List.mem_cons_self x t) with ⟨b, rfl⟩
    exact ⟨b ++ out, by simp [exceptFlat, hout]⟩

theorem exceptFlat_mem {α : Type} :
    ∀ {l : List (Except Unit (List α))} {out : List α},
      exceptFlat l = .ok out → ∀ {x : α}, x ∈ out →
      ∃ b, Except.ok b ∈ l ∧ x ∈ b := by
  intro l
  induction l with
  | nil =>
    intro out h x hx
    injection h with h
    subst h
    cases hx
  | cons e t ih =>
    intro out h x hx
    unfold exceptFlat at h
    rcases e with err | b
    · cases h
    · rcases ht : exceptFlat t with err2 | out2 <;> rw [ht] at h
      · cases h
      · injection h with h
        subst h
        rcases List.mem_append.1 hx with hx2 | hx2
        · exact ⟨b, List.mem_cons_self _ _, hx2⟩
        · rcases ih ht hx2 with ⟨b2, hb2, hxb⟩
          exact ⟨b2, List.mem_cons_of_mem _ hb2, hxb⟩

theorem mem_pandasUniqueAux {x : String} :
    ∀ {l seen : List String}, x ∈ pandasUniqueAux seen l → x ∈ l := by
  intro l
  induction l with
  | nil => intro seen h; cases h
  | cons y t ih =>
    intro seen h
    unfold pandasUniqueAux at h
    by_cases hy : y ∈ seen
    · rw [if_pos hy] at h
      exact List.mem_cons_of_mem _ (ih h)
    · rw [if_neg hy] at h
      rcases List.mem_cons.1 h with rfl | h2
      · exact List.mem_cons_self _ _
      · exact List.mem_cons_of_mem _ (ih h2)

theorem mem_pandasUnique {x : String} {l : List String}
    (h : x ∈ pandasUnique l) : x ∈ l :=
  mem_pandasUniqueAux h

theorem diffAux_abs (t : List ℚ) :
    ∀ p : ℚ, ((diffAux p t).map (Option.map (fun d => |d|))).filterMap id =
      specAbsDiffs (p :: t) := by
  induction t with
  | nil => intro p; rfl
  | cons y ys ih =>
    intro p
    simp only [diffAux, List.map_cons, List.filterMap_cons, Option.map_some, id]
    rw [ih y]
    rfl

/-- The jitter formula of the code, `rtt.diff().abs().mean()`, equals the
mean absolute first-difference stated by the spec. -/
theorem jitter_eq_spec (xs : List ℚ) :
    pdMeanOpt ((pdDiff xs).map (Option.map (fun d => |d|))) = specJitter xs := by
  unfold pdMeanOpt specJitter
  cases xs with
  | nil => rfl
  | cons x t =>
    show pdMean (((diffAux x t).map (Option.map fun d => |d|)).filterMap id) =
      pdMean (specAbsDiffs (x :: t))
    rw [diffAux_abs t x]


theorem rttEntry_ok (rows : List AggRow) (p : String) (r0 : AggRow) (a : String)
    (hcat : ∀ r ∈ rows, (NET_PROFILES.lookup r.profile).isSome = true) :
    ∃ b, rttEntry rows p r0 a = .ok b := by
  unfold rttEntry
  by_cases hemp : (groupRows rows p a).isEmpty = true
  · exact ⟨[], by rw [if_pos hemp]⟩
  · have hne : groupRows rows p a ≠ [] := fun hnil => hemp (by rw [hnil]; rfl)
    rcases List.exists_mem_of_ne_nil _ hne with ⟨rG, hrG⟩
    have hmem := List.mem_filter.1 hrG
    have hpr : rG.profile = p := (of_decide_eq_true hmem.2).2
    have hsome := hcat rG hmem.1
    rw [hpr] at hsome
    rcases Option.isSome_iff_exists.1 hsome with ⟨cfg, hcfg⟩
    exact ⟨_, by rw [if_neg hemp, hcfg]⟩

theorem cmpEntry_ok (rows : List AggRow) (p : String) (hl : Bool) (a : String)
    (hcat : ∀ r ∈ rows, (NET_PROFILES.lookup r.profile).isSome = true) :
    ∃ b, cmpEntry rows p hl a = .ok b := by
  unfold cmpEntry
  by_cases hemp : (groupRows rows p a).isEmpty = true
  · exact ⟨[], by rw [if_pos hemp]⟩
  · have hne : groupRows rows p a ≠ [] := fun hnil => hemp (by rw [hnil]; rfl)
    rcases List.exists_mem_of_ne_nil _ hne with ⟨rG, hrG⟩
    have hmem := List.mem_filter.1 hrG
    have hpr : rG.profile = p := (of_decide_eq_true hmem.2).2
    have hsome := hcat rG hmem.1
    rw [hpr] at hsome
    rcases Option.isSome_iff_exists.1 hsome with ⟨cfg, hcfg⟩
    exact ⟨_, by rw [if_neg hemp, hcfg]⟩

theorem rttEntry_mem {rows : List AggRow} {p : String} {r0 : AggRow} {a : String}
    {b : List RttRec} (hb : rttEntry rows p r0 a = .ok b) {rec : RttRec}
    (hrec : rec ∈ b) :
    ∃ cfg, groupRows rows p a ≠ [] ∧ NET_PROFILES.lookup p = some cfg ∧
      rec = mkRttRec a r0.profile_name cfg.latency
        ((groupRows rows p a).map (·.rtt)) := by
  unfold rttEntry at hb
  by_cases hemp : (groupRows rows p a).isEmpty = true
  · rw [if_pos hemp] at hb
    injection hb with hb
    subst hb
    cases hrec
  · rw [if_neg hemp] at hb
    rcases hcfg : NET_PROFILES.lookup p with _ | cfg <;> rw [hcfg] at hb
    · cases hb
    · injection hb with hb
      subst hb
      have h2 := List.mem_singleton.1 hrec
      subst h2
      exact ⟨cfg, fun hnil => hemp (by rw [hnil]; rfl), rfl, rfl⟩

theorem cmpEntry_mem {rows : List AggRow} {p : String} {hl : Bool} {a : String}
    {b : List CmpRec} (hb : cmpEntry rows p hl a = .ok b) {rec : CmpRec}
    (hrec : rec ∈ b) :
    ∃ cfg, groupRows rows p a ≠ [] ∧ NET_PROFILES.lookup p = some cfg ∧
      rec = mkCmpRec cfg.name a hl (groupRows rows p a) := by
  unfold cmpEntry at hb
  by_cases hemp : (groupRows rows p a).isEmpty = true
  · rw [if_pos hemp] at hb
    injection hb with hb
    subst hb
    cases hrec
  · rw [if_neg hemp] at hb
    rcases hcfg : NET_PROFILES.lookup p with _ | cfg <;> rw [hcfg] at hb
    · cases hb
    · injection hb with hb
      subst hb
      have h2 := List.mem_singleton.1 hrec
      subst h2
      exact ⟨cfg, fun hnil => hemp (by rw [hnil]; rfl), rfl, rfl⟩

theorem summarize_ok (hl : Bool) (rows : List AggRow)
    (hcat : ∀ r ∈ rows, (NET_PROFILES.lookup r.profile).isSome = true) :
    ∃ recs, summarize_rtt (.concat hl rows) = .ok recs := by
  unfold summarize_rtt
  apply exceptFlat_all_ok
  intro e he
  rcases List.mem_map.1 he with ⟨p, hp, rfl⟩
  rcases List.mem_map.1 (mem_pandasUnique hp) with ⟨rw0, hrw0, hpeq⟩
  have hrf : rw0 ∈ rows.filter (fun r => r.profile = p) :=
    List.mem_filter.2 ⟨hrw0, by simp [hpeq]⟩
  unfold rttProfileEntry
  rcases hhead : (rows.filter (fun r => r.profile = p)).head? with _ | r0
  · rw [List.head?_eq_none_iff] at hhead
    rw [hhead] at hrf
    cases hrf
  · rw [hhead]
    apply exceptFlat_all_ok
    intro e2 he2
    rcases List.mem_map.1 he2 with ⟨a, _, rfl⟩
    exact rttEntry_ok rows p r0 a hcat

theorem generate_ok (hl : Bool) (rows : List AggRow)
    (hcat : ∀ r ∈ rows, (NET_PROFILES.lookup r.profile).isSome = true) :
    ∃ crecs, generate_comparison_table (.concat hl rows) = .ok crecs := by
  unfold generate_comparison_table
  apply exceptFlat_all_ok
  intro e he
  rcases List.mem_map.1 he with ⟨p, _, rfl⟩
  unfold cmpProfileEntry
  apply exceptFlat_all_ok
  intro e2 he2
  rcases List.mem_map.1 he2 with ⟨a, _, rfl⟩
  exact cmpEntry_ok rows p hl a hcat

theorem summarize_mem (hl : Bool) (rows : List AggRow) (recs : List RttRec)
    (hok : summarize_rtt (.concat hl rows) = .ok recs)
    (rec : RttRec) (hrec : rec ∈ recs) :
    ∃ (p a : String) (r0 : AggRow) (cfg : NetProfile), groupRows rows p a ≠ [] ∧
      NET_PROFILES.lookup p = some cfg ∧
      rec = mkRttRec a r0.profile_name cfg.latency
        ((groupRows rows p a).map (·.rtt)) := by
  unfold summarize_rtt at hok
  rcases exceptFlat_mem hok hrec with ⟨b, hb, hrecb⟩
  rcases List.mem_map.1 hb with ⟨p, hp, hfb⟩
  unfold rttProfileEntry at hfb
  rcases hhead : (rows.filter (fun r => r.profile = p)).head? with _ | r0 <;>
    rw [hhead] at hfb
  · cases hfb
  · rcases exceptFlat_mem hfb hrecb with ⟨b2, hb2, hrecb2⟩
    rcases List.mem_map.1 hb2 with ⟨a, ha, hfb2⟩
    rcases rttEntry_mem hfb2 hrecb2 with ⟨cfg, hne, hcfg, hrec2⟩
    exact ⟨p, a, r0, cfg, hne, hcfg, hrec2⟩

theorem generate_mem (hl : Bool) (rows : List AggRow) (crecs : List CmpRec)
    (hok : generate_comparison_table (.concat hl rows) = .ok crecs)
    (rec : CmpRec) (hrec : rec ∈ crecs) :
    ∃ (p a : String) (cfg : NetProfile), groupRows rows p a ≠ [] ∧
      NET_PROFILES.lookup p = some cfg ∧
      rec = mkCmpRec cfg.name a hl (groupRows rows p a) := by
  unfold generate_comparison_table at hok
  rcases exceptFlat_mem hok hrec with ⟨b, hb, hrecb⟩
  rcases List.mem_map.1 hb with ⟨p, hp, hfb⟩
  unfold cmpProfileEntry at hfb
  rcases exceptFlat_mem hfb hrecb with ⟨b2, hb2, hrecb2⟩
  rcases List.mem_map.1 hb2 with ⟨a, ha, hfb2⟩
  rcases cmpEntry_mem hfb2 hrecb2 with ⟨cfg, hne, hcfg, hrec2⟩
  exact ⟨p, a, cfg, hne, hcfg, hrec2⟩

theorem mem_pandasUniqueAux_of_mem {x : String} :
    ∀ {l seen : List String}, x ∈ l → x ∉ seen → x ∈ pandasUniqueAux seen l := by
  intro l
  induction l with
  | nil => intro seen h _; cases h
  | cons y t ih =>
    intro seen hx hns
    unfold pandasUniqueAux
    by_cases hy : y ∈ seen
    · rw [if_pos hy]
      rcases List.mem_cons.1 hx with rfl | hx2
      · exact absurd hy hns
      · exact ih hx2 hns
    · rw [if_neg hy]
      rcases List.mem_cons.1 hx with rfl | hx2
      · exact List.mem_cons_self _ _
      · by_cases hxy : x = y
        · subst hxy
          exact List.mem_cons_self _ _
        · refine List.mem_cons_of_mem _ (ih hx2 ?_)
          intro hmem
          rcases List.mem_cons.1 hmem with h | h
          · exact hxy h
          · exact hns h

theorem mem_pandasUnique_of_mem {x : String} {l : List String} (h : x ∈ l) :
    x ∈ pandasUnique l :=
  mem_pandasUniqueAux_of_mem h (List.not_mem_nil x)

theorem exceptFlat_mem_entry {α : Type} :
    ∀ {l : List (Except Unit (List α))} {out : List α},
      exceptFlat l = .ok out → ∀ {e}, e ∈ l →
      ∃ b, e = .ok b ∧ ∀ x ∈ b, x ∈ out := by
  intro l
  induction l with
  | nil => intro out h e he; cases he
  | cons e0 t ih =>
    intro out h e he
    unfold exceptFlat at h
    rcases e0 with err | b0
    · cases h
    · rcases ht : exceptFlat t with err2 | out2 <;> rw [ht] at h
      · cases h
      · injection h with h
        subst h
        rcases List.mem_cons.1 he with rfl | he2
        · exact ⟨b0, rfl, fun x hx => List.mem_append_left _ hx⟩
        · rcases ih ht he2 with ⟨b, rfl, hsub⟩
          exact ⟨b, rfl, fun x hx => List.mem_append_right _ (hsub x hx)⟩

/-- Coverage of `summarize_rtt`: every `(profile, scheme)` group present
in the aggregate contributes to the output the record built from that
same group (its profile name from `iloc[0]` of the profile filter, its
latency from the catalog, its statistics from the group RTT series). -/
theorem summarize_covers (hl : Bool) (rows : List AggRow) (recs : List RttRec)
    (hok : summarize_rtt (.concat hl rows) = .ok recs)
    (p a : String) (hne : groupRows rows p a ≠ []) (cfg : NetProfile)
    (hcfg : NET_PROFILES.lookup p = some cfg) (r0 : AggRow)
    (hhead : (rows.filter (fun r => r.profile = p)).head? = some r0) :
    mkRttRec a r0.profile_name cfg.latency
      ((groupRows rows p a).map (·.rtt)) ∈ recs := by
  rcases List.exists_mem_of_ne_nil _ hne with ⟨rG, hrG⟩
  have hmem := List.mem_filter.1 hrG
  have hpair := of_decide_eq_true hmem.2
  have hpmem : p ∈ pandasUnique (rows.map (·.profile)) :=
    mem_pandasUnique_of_mem (List.mem_map.2 ⟨rG, hmem.1, hpair.2⟩)
  have hamem : a ∈ pandasUnique (rows.map (·.scheme)) :=
    mem_pandasUnique_of_mem (List.mem_map.2 ⟨rG, hmem.1, hpair.1⟩)
  unfold summarize_rtt at hok
  rcases exceptFlat_mem_entry hok
      (List.mem_map_of_mem (rttProfileEntry rows) hpmem) with ⟨b, hbEq, hbSub⟩
  unfold rttProfileEntry at hbEq
  rw [hhead] at hbEq
  have hbEq2 : exceptFlat ((pandasUnique (rows.map (·.scheme))).map
      (rttEntry rows p r0)) = .ok b := hbEq
  rcases exceptFlat_mem_entry hbEq2
      (List.mem_map_of_mem (rttEntry rows p r0) hamem) with ⟨b2, hb2Eq, hb2Sub⟩
  have hempty : ¬(groupRows rows p a).isEmpty = true := by
    rcases hG : groupRows rows p a with _ | ⟨x, t⟩
    · exact absurd hG hne
    · simp
  unfold rttEntry at hb2Eq
  rw [if_neg hempty, hcfg] at hb2Eq
  injection hb2Eq with hb2
  subst hb2
  exact hbSub _ (hb2Sub _ (List.mem_singleton.2 rfl))

/-- Coverage of `generate_comparison_table`: every group present
contributes the comparison record built from that same group. -/
theorem generate_covers (hl : Bool) (rows : List AggRow) (crecs : List CmpRec)
    (hok : generate_comparison_table (.concat hl rows) = .ok crecs)
    (p a : String) (hne : groupRows rows p a ≠ []) (cfg : NetProfile)
    (hcfg : NET_PROFILES.lookup p = some cfg) :
    mkCmpRec cfg.name a hl (groupRows rows p a) ∈ crecs := by
  rcases List.exists_mem_of_ne_nil _ hne with ⟨rG, hrG⟩
  have hmem := List.mem_filter.1 hrG
  have hpair := of_decide_eq_true hmem.2
  have hpmem : p ∈ pandasUnique (rows.map (·.profile)) :=
    mem_pandasUnique_of_mem (List.mem_map.2 ⟨rG, hmem.1, hpair.2⟩)
  have hamem : a ∈ pandasUnique (rows.map (·.scheme)) :=
    mem_pandasUnique_of_mem (List.mem_map.2 ⟨rG, hmem.1, hpair.1⟩)
  unfold generate_comparison_table at hok
  rcases exceptFlat_mem_entry hok
      (List.mem_map_of_mem (cmpProfileEntry rows hl) hpmem) with ⟨b, hbEq, hbSub⟩
  unfold cmpProfileEntry at hbEq
  rcases exceptFlat_mem_entry hbEq
      (List.mem_map_of_mem (cmpEntry rows p hl) hamem) with ⟨b2, hb2Eq, hb2Sub⟩
  have hempty : ¬(groupRows rows p a).isEmpty = true := by
    rcases hG : groupRows rows p a with _ | ⟨x, t⟩
    · exact absurd hG hne
    · simp
  unfold cmpEntry at hb2Eq
  rw [if_neg hempty, hcfg] at hb2Eq
  injection hb2Eq with hb2
  subst hb2
  exact hbSub _ (hb2Sub _ (List.mem_singleton.2 rfl))

/-- C6: on a non-empty aggregate whose profile ids are cataloged, both
generators succeed, and the Summary Records correspond to the present
`(profile, scheme)` groups in both directions.  Every group present in
the aggregate yields a record whose identity fields name that group and
whose statistics are computed from that same group: jitter is the mean
absolute first-difference of the group RTT series, the throughput
statistics are the group mean, sample standard deviation and 90th
percentile, and the mean loss percentage is `0` whenever the aggregate
has no `loss_rate` column (the absent-field degraded state), with no
exception raised by that absence.  Conversely every emitted record is the
record of a non-empty group. -/
theorem C6_group_statistics (hl : Bool) (rows : List AggRow)
    (hcat : ∀ r ∈ rows, (NET_PROFILES.lookup r.profile).isSome = true) :
    (∃ recs, summarize_rtt (.concat hl rows) = .ok recs ∧
      (∀ p a : String, groupRows rows p a ≠ [] →
        ∃ (cfg : NetProfile) (r0 : AggRow),
          NET_PROFILES.lookup p = some cfg ∧
          (rows.filter (fun r => r.profile = p)).head? = some r0 ∧
          ∃ rec ∈ recs,
            rec.algorithm = a.toUpper ∧
            rec.profile_name = r0.profile_name ∧
            rec.latency = cfg.latency ∧
            rec.avg_rtt = pdMean ((groupRows rows p a).map (·.rtt)) ∧
            rec.std_rtt = pdStd ((groupRows rows p a).map (·.rtt)) ∧
            rec.jitter = specJitter ((groupRows rows p a).map (·.rtt))) ∧
      (∀ rec ∈ recs, ∃ p a : String, groupRows rows p a ≠ [] ∧
        rec.jitter = specJitter ((groupRows rows p a).map (·.rtt)))) ∧
    (∃ crecs, generate_comparison_table (.concat hl rows) = .ok crecs ∧
      (∀ p a : String, groupRows rows p a ≠ [] →
        ∃ cfg : NetProfile, NET_PROFILES.lookup p = some cfg ∧
          ∃ rec ∈ crecs,
            rec.profile_name = cfg.name ∧
            rec.algorithm = a.toUpper ∧
            rec.avg_tp = pdMean ((groupRows rows p a).map (·.throughput)) ∧
            rec.std_tp = pdStd ((groupRows rows p a).map (·.throughput)) ∧
            rec.p90_tp = pdQuantile (9/10) ((groupRows rows p a).map (·.throughput)) ∧
            (hl = false → rec.avg_loss_pct = some 0)) ∧
      (∀ rec ∈ crecs, ∃ p a : String, groupRows rows p a ≠ [] ∧
        rec.avg_tp = pdMean ((groupRows rows p a).map (·.throughput)) ∧
        rec.std_tp = pdStd ((groupRows rows p a).map (·.throughput)) ∧
        rec.p90_tp = pdQuantile (9/10) ((groupRows rows p a).map (·.throughput)) ∧
        (hl = false → rec.avg_loss_pct = some 0))) := by
  constructor
  · rcases summarize_ok hl rows hcat with ⟨recs, hok⟩
    refine ⟨recs, hok, ?_, ?_⟩
    · intro p a hne
      rcases List.exists_mem_of_ne_nil _ hne with ⟨rG, hrG⟩
      have hmem := List.mem_filter.1 hrG
      have hpair := of_decide_eq_true hmem.2
      have hsome := hcat rG hmem.1
      rw [hpair.2] at hsome
      rcases Option.isSome_iff_exists.1 hsome with ⟨cfg, hcfg⟩
      have hrf : rG ∈ rows.filter (fun r => r.profile = p) :=
        List.mem_filter.2 ⟨hmem.1, by simp [hpair.2]⟩
      rcases hhead : (rows.filter (fun r => r.profile = p)).head? with _ | r0
      · rw [List.head?_eq_none_iff] at hhead
        rw [hhead] at hrf
        cases hrf
      · exact ⟨cfg, r0, hcfg, hhead,
          mkRttRec a r0.profile_name cfg.latency
            ((groupRows rows p a).map (fun r : AggRow => r.rtt)),
          summarize_covers hl rows recs hok p a hne cfg hcfg r0 hhead,
          rfl, rfl, rfl, rfl, rfl, jitter_eq_spec _⟩
    · intro rec hrec
      rcases summarize_mem hl rows recs hok rec hrec with ⟨p, a, r0, cfg, hne2, _, rfl⟩
      exact ⟨p, a, hne2, jitter_eq_spec _⟩
  · rcases generate_ok hl rows hcat with ⟨crecs, hok⟩
    refine ⟨crecs, hok, ?_, ?_⟩
    · intro p a hne
      rcases List.exists_mem_of_ne_nil _ hne with ⟨rG, hrG⟩
      have hmem := List.mem_filter.1 hrG
      have hpair := of_decide_eq_true hmem.2
      have hsome := hcat rG hmem.1
      rw [hpair.2] at hsome
      rcases Option.isSome_iff_exists.1 hsome with ⟨cfg, hcfg⟩
      refine ⟨cfg, hcfg, mkCmpRec cfg.name a hl (groupRows rows p a),
        generate_covers hl rows crecs hok p a hne cfg hcfg,
        rfl, rfl, rfl, rfl, rfl, fun hfalse => ?_⟩
      simp [mkCmpRec, hfalse]
    · intro rec hrec
      rcases generate_mem hl rows crecs hok rec hrec with ⟨p, a, cfg, hne2, _, rfl⟩
      refine ⟨p, a, hne2, rfl, rfl, rfl, fun hfalse => ?_⟩
      simp [mkCmpRec, hfalse]

theorem C6_group_statistics_witness :
    (∃ recs, summarize_rtt (.concat true witRows) = .ok recs ∧
      (∀ p a : String, groupRows witRows p a ≠ [] →
        ∃ (cfg : NetProfile) (r0 : AggRow),
          NET_PROFILES.lookup p = some cfg ∧
          (witRows.filter (fun r => r.profile = p)).head? = some r0 ∧
          ∃ rec ∈ recs,
            rec.algorithm = a.toUpper ∧
            rec.profile_name = r0.profile_name ∧
            rec.latency = cfg.latency ∧
            rec.avg_rtt = pdMean ((groupRows witRows p a).map (·.rtt)) ∧
            rec.std_rtt = pdStd ((groupRows witRows p a).map (·.rtt)) ∧
            rec.jitter = specJitter ((groupRows witRows p a).map (·.rtt))) ∧
      (∀ rec ∈ recs, ∃ p a : String, groupRows witRows p a ≠ [] ∧
        rec.jitter = specJitter ((groupRows witRows p a).map (·.rtt)))) ∧
    (∃ crecs, generate_comparison_table (.concat true witRows) = .ok crecs ∧
      (∀ p a : String, groupRows witRows p a ≠ [] →
        ∃ cfg : NetProfile, NET_PROFILES.lookup p = some cfg ∧
          ∃ rec ∈ crecs,
            rec.profile_name = cfg.name ∧
            rec.algorithm = a.toUpper ∧
            rec.avg_tp = pdMean ((groupRows witRows p a).map (·.throughput)) ∧
            rec.std_tp = pdStd ((groupRows witRows p a).map (·.throughput)) ∧
            rec.p90_tp = pdQuantile (9/10) ((groupRows witRows p a).map (·.throughput)) ∧
            (true = false → rec.avg_loss_pct = some 0)) ∧
      (∀ rec ∈ crecs, ∃ p a : String, groupRows witRows p a ≠ [] ∧
        rec.avg_tp = pdMean ((groupRows witRows p a).map (·.throughput)) ∧
        rec.std_tp = pdStd ((groupRows witRows p a).map (·.throughput)) ∧
        rec.p90_tp = pdQuantile (9/10) ((groupRows witRows p a).map (·.throughput)) ∧
        (true = false → rec.avg_loss_pct = some 0))) :=
  C6_group_statistics true witRows (by decide)
